import Mathlib

/-!
Shallow embedding of the CI synchronization scripts of this repository.

The repository consists of shell-out glue code: every interesting decision is a
pure function of the (stdout, return code) results of `git` / `gh` invocations
and of filesystem-existence tests.  We therefore model those externals as
explicit oracles (a `GitWorld` of command results, `String -> Bool` existence
maps) and translate each Python function into a pure Lean function that returns
both its Python return value and the list of side-effecting operations it
performs, in order.

Modelled from the spec: the decorators `handles_console_error(ok_codes=...)`
and the helper `_run_console_tool` live in `config/cli_unifier.py`, which is
not part of the sources; the spec describes every operation as "a direct,
synchronous shell-out to git or gh", so the wrappers are modelled as plain
pass-throughs returning the tool's (stdout, stderr, return code) result.
Likewise `TRACKED_JSON_PATH` is imported from `config.constants`, where only
the commented-out definition remains; the spec and both script variants fix
the tracked mapping file at "autosync/test_files.json".
-/

/-- Oracle for the git shell-outs the scripts perform: `revParse ref path` and
gitShow `ref path` stand for the (stdout, return code) of
`git rev-parse ref:path` and `git show ref:path` run in the target repo. -/
structure GitWorld where
  revParse : String → String → String × Int
  gitShow : String → String → String × Int

/-- Modelled from the spec: the tracked JSON mapping file path,
"autosync/test_files.json" (the constant `TRACKED_JSON_PATH` is imported from
`config.constants` but only its commented-out definition is in the sources). -/
def TRACKED_JSON_PATH : String := "autosync/test_files.json"

/-- Drop leading whitespace characters from a character list. -/
def dropLeadingWs : List Char → List Char
  | [] => []
  | c :: rest => if c.isWhitespace then dropLeadingWs rest else c :: rest

/-- Model of Python str.strip() with no argument: remove whitespace from both
ends of the string. -/
def pyStrip (s : String) : String :=
  String.mk ((dropLeadingWs ((dropLeadingWs s.data).reverse)).reverse)

/-- Translation of the sha-extraction idiom used by `get_json_from_source` and
`run_sync` (admin variant): `sha = stdout.strip() if rc == 0 else None`. -/
def blobSha (w : GitWorld) (ref path : String) : Option String :=
  let r := w.revParse ref path
  if r.2 = 0 then some (pyStrip r.1) else none

/-- One entry of the parsed JSON mapping array: a dict whose "source" and
"target" keys may be absent (`item.get` returning None).  JSON string fields
are modelled as `Option String`, with Python falsiness covering None and "". -/
structure MapItem where
  source : Option String
  target : Option String

/-- Python truthiness of an optional string field: None and "" are falsy. -/
def truthyStr : Option String → Bool
  | none => false
  | some s => s != ""

/-- Body of the loop of `get_sync_mapping` (both variants, identical code):
append (source, target) whenever both fields are present and truthy. -/
def extractPairs : List MapItem → List (String × String)
  | [] => []
  | item :: rest =>
    if truthyStr item.source && truthyStr item.target then
      (item.source.getD "", item.target.getD "") :: extractPairs rest
    else
      extractPairs rest

/-- Translation of `get_sync_mapping(json_content)`: `if not json_content:
return []` (None or the empty array), then the extraction loop. -/
def get_sync_mapping (jc : Option (List MapItem)) : List (String × String) :=
  match jc with
  | none => []
  | some items => if items.isEmpty then [] else extractPairs items

/-- Specification-side description of C7 (written from the claim's words, to
be compared with the translated `get_sync_mapping`): keep exactly the items
whose two fields are present and non-empty, yielding their pair. -/
def specPairOfItem (it : MapItem) : Option (String × String) :=
  match it.source, it.target with
  | some s, some t => if s ≠ "" ∧ t ≠ "" then some (s, t) else none
  | some _, none => none
  | none, _ => none

theorem extractPairs_eq_filterMap (l : List MapItem) :
    extractPairs l = l.filterMap specPairOfItem := by
  induction l with
  | nil => rfl
  | cons it rest ih =>
    cases hs : it.source with
    | none => simp [extractPairs, truthyStr, hs, specPairOfItem, List.filterMap_cons, ih]
    | some s =>
      cases ht : it.target with
      | none => simp [extractPairs, truthyStr, hs, ht, specPairOfItem, List.filterMap_cons, ih]
      | some t =>
        by_cases hse : s = ""
        · simp [extractPairs, truthyStr, hs, ht, hse, specPairOfItem, List.filterMap_cons, ih]
        · by_cases hte : t = ""
          · simp [extractPairs, truthyStr, hs, ht, hse, hte, specPairOfItem,
              List.filterMap_cons, ih]
          · simp [extractPairs, truthyStr, hs, ht, hse, hte, specPairOfItem,
              List.filterMap_cons, ih]

/-- C7: `get_sync_mapping` returns exactly the (source, target) pairs of the
JSON items in which both fields are present and truthy, in input order, and
returns [] when `json_content` is None or the empty array. -/
theorem get_sync_mapping_spec (jc : Option (List MapItem)) :
    get_sync_mapping jc = (jc.getD []).filterMap specPairOfItem ∧
      get_sync_mapping none = [] ∧ get_sync_mapping (some []) = [] := by
  refine ⟨?_, rfl, rfl⟩
  cases jc with
  | none => rfl
  | some items =>
    cases items with
    | nil => rfl
    | cons it rest =>
      show extractPairs (it :: rest) = _
      exact extractPairs_eq_filterMap _

/-- Pointwise update of a filesystem-existence oracle, recording the effect of
writing or removing the file at a given path. -/
def upd (f : String → Bool) (k : String) (v : Bool) : String → Bool :=
  fun x => if x = k then v else f x

/-- Side-effecting operations of `sync_files_from_source` (admin variant):
writeAdd t c = write content c to repo_path/t and stage it with git add;
gitRm t = run git rm on t. -/
inductive FileOp
  | writeAdd (target content : String)
  | gitRm (target : String)
  deriving DecidableEq

/-- Condition under which `sync_files_from_source` (and the other show-based
branches) treats `git show ref:path` as a successful, non-empty read:
`rc == 0 and stdout`. -/
def showOk (w : GitWorld) (ref path : String) : Prop :=
  (w.gitShow ref path).2 = 0 ∧ (w.gitShow ref path).1 ≠ ""

instance (w : GitWorld) (ref path : String) : Decidable (showOk w ref path) :=
  inferInstanceAs (Decidable (_ ∧ _))

/-- Translation of `sync_files_from_source(repo_path, source_ref, sync_list)`
(admin variant): for each (source_path, target_path), on a successful
non-empty `git show` write the blob to the target and stage it; otherwise
remove the target with git rm when it exists; return the emitted operations
and the `has_changes` flag.  The existence oracle `fs` is threaded through the
loop so that earlier writes/removals are visible to later iterations. -/
def sync_files_from_source (w : GitWorld) (sourceRef : String)
    (fs : String → Bool) : List (String × String) → List FileOp × Bool
  | [] => ([], false)
  | (sourcePath, targetPath) :: rest =>
    if showOk w sourceRef sourcePath then
      let res := sync_files_from_source w sourceRef (upd fs targetPath true) rest
      (FileOp.writeAdd targetPath (w.gitShow sourceRef sourcePath).1 :: res.1, true)
    else if fs targetPath then
      let res := sync_files_from_source w sourceRef (upd fs targetPath false) rest
      (FileOp.gitRm targetPath :: res.1, true)
    else
      sync_files_from_source w sourceRef fs rest

theorem sync_files_changes_iff (w : GitWorld) (sourceRef : String)
    (fs : String → Bool) (l : List (String × String)) :
    (sync_files_from_source w sourceRef fs l).2 = true ↔
      (sync_files_from_source w sourceRef fs l).1 ≠ [] := by
  induction l generalizing fs with
  | nil => simp [sync_files_from_source]
  | cons p rest ih =>
    obtain ⟨a, b⟩ := p
    by_cases h : showOk w sourceRef a
    · simp [sync_files_from_source, h]
    · by_cases hf : fs b
      · simp [sync_files_from_source, h, hf]
      · simpa [sync_files_from_source, h, hf] using ih fs

theorem sync_files_ops_sound (w : GitWorld) (sourceRef : String)
    (fs : String → Bool) (l : List (String × String)) :
    ∀ op ∈ (sync_files_from_source w sourceRef fs l).1,
      ∃ s t, (s, t) ∈ l ∧
        ((op = FileOp.writeAdd t (w.gitShow sourceRef s).1 ∧ showOk w sourceRef s) ∨
         (op = FileOp.gitRm t ∧ ¬ showOk w sourceRef s)) := by
  induction l generalizing fs with
  | nil => simp [sync_files_from_source]
  | cons p rest ih =>
    obtain ⟨a, b⟩ := p
    intro op hop
    by_cases h : showOk w sourceRef a
    · rw [show (sync_files_from_source w sourceRef fs ((a, b) :: rest)).1 =
          FileOp.writeAdd b (w.gitShow sourceRef a).1 ::
            (sync_files_from_source w sourceRef (upd fs b true) rest).1 from by
        simp [sync_files_from_source, h]] at hop
      rcases List.mem_cons.mp hop with heq | hm
      · exact ⟨a, b, List.mem_cons_self _ _, Or.inl ⟨heq, h⟩⟩
      · obtain ⟨s, t, hst, hc⟩ := ih (upd fs b true) op hm
        exact ⟨s, t, List.mem_cons_of_mem _ hst, hc⟩
    · by_cases hf : fs b
      · rw [show (sync_files_from_source w sourceRef fs ((a, b) :: rest)).1 =
            FileOp.gitRm b ::
              (sync_files_from_source w sourceRef (upd fs b false) rest).1 from by
          simp [sync_files_from_source, h, hf]] at hop
        rcases List.mem_cons.mp hop with heq | hm
        · exact ⟨a, b, List.mem_cons_self _ _, Or.inr ⟨heq, h⟩⟩
        · obtain ⟨s, t, hst, hc⟩ := ih (upd fs b false) op hm
          exact ⟨s, t, List.mem_cons_of_mem _ hst, hc⟩
      · rw [show (sync_files_from_source w sourceRef fs ((a, b) :: rest)).1 =
            (sync_files_from_source w sourceRef fs rest).1 from by
          simp [sync_files_from_source, h, hf]] at hop
        obtain ⟨s, t, hst, hc⟩ := ih fs op hop
        exact ⟨s, t, List.mem_cons_of_mem _ hst, hc⟩

theorem sync_files_write_complete (w : GitWorld) (sourceRef : String)
    (fs : String → Bool) (l : List (String × String)) :
    ∀ s t, (s, t) ∈ l → showOk w sourceRef s →
      FileOp.writeAdd t (w.gitShow sourceRef s).1 ∈
        (sync_files_from_source w sourceRef fs l).1 := by
  induction l generalizing fs with
  | nil => simp
  | cons p rest ih =>
    obtain ⟨a, b⟩ := p
    intro s t hst hok
    rcases List.mem_cons.mp hst with heq | hm
    · rw [Prod.mk.injEq] at heq
      obtain ⟨rfl, rfl⟩ := heq
      simp [sync_files_from_source, hok]
    · by_cases h : showOk w sourceRef a
      · rw [show (sync_files_from_source w sourceRef fs ((a, b) :: rest)).1 =
            FileOp.writeAdd b (w.gitShow sourceRef a).1 ::
              (sync_files_from_source w sourceRef (upd fs b true) rest).1 from by
          simp [sync_files_from_source, h]]
        exact List.mem_cons_of_mem _ (ih (upd fs b true) s t hm hok)
      · by_cases hf : fs b
        · rw [show (sync_files_from_source w sourceRef fs ((a, b) :: rest)).1 =
              FileOp.gitRm b ::
                (sync_files_from_source w sourceRef (upd fs b false) rest).1 from by
            simp [sync_files_from_source, h, hf]]
          exact List.mem_cons_of_mem _ (ih (upd fs b false) s t hm hok)
        · rw [show (sync_files_from_source w sourceRef fs ((a, b) :: rest)).1 =
              (sync_files_from_source w sourceRef fs rest).1 from by
            simp [sync_files_from_source, h, hf]]
          exact ih fs s t hm hok

/-- C4: for every pair of the sync list, `sync_files_from_source` writes the
`git show source_ref:source` output to the target and stages it exactly on a
successful non-empty read (every such pair yields a writeAdd, and every
emitted op comes from a pair of the list under the matching condition); when
the read fails or is empty and the target exists at the point the pair is
processed (the statement quantifies over the threaded existence oracle, so it
covers every iteration), a git rm of that target is emitted, marking a
change; and it returns True iff at least one file was written or removed. -/
theorem sync_files_from_source_spec (w : GitWorld) (sourceRef : String)
    (fs : String → Bool) (l : List (String × String)) :
    ((sync_files_from_source w sourceRef fs l).2 = true ↔
      (sync_files_from_source w sourceRef fs l).1 ≠ []) ∧
    (∀ s t, (s, t) ∈ l → showOk w sourceRef s →
      FileOp.writeAdd t (w.gitShow sourceRef s).1 ∈
        (sync_files_from_source w sourceRef fs l).1) ∧
    (∀ op ∈ (sync_files_from_source w sourceRef fs l).1,
      ∃ s t, (s, t) ∈ l ∧
        ((op = FileOp.writeAdd t (w.gitShow sourceRef s).1 ∧ showOk w sourceRef s) ∨
         (op = FileOp.gitRm t ∧ ¬ showOk w sourceRef s))) ∧
    (∀ s t rest2, l = (s, t) :: rest2 → ¬ showOk w sourceRef s → fs t = true →
      sync_files_from_source w sourceRef fs l =
        (FileOp.gitRm t ::
          (sync_files_from_source w sourceRef (upd fs t false) rest2).1, true)) := by
  refine ⟨sync_files_changes_iff w sourceRef fs l,
    sync_files_write_complete w sourceRef fs l,
    sync_files_ops_sound w sourceRef fs l, ?_⟩
  intro s t rest2 hl hns hfs
  subst hl
  simp [sync_files_from_source, hns, hfs]

/-- Python truthiness of the json_content argument (`if json_content:`):
None and the empty array are falsy. -/
def truthyJson : Option (List MapItem) → Bool
  | none => false
  | some items => !items.isEmpty

/-- Dataclass SyncResult of both script variants. -/
structure SyncResult where
  has_changes : Bool
  files_to_sync_found : Bool
  json_changed : Bool
  deriving DecidableEq

/-- Selection loop of `run_sync` (admin variant): a (source_path, target_path)
pair of the mapping is appended to files_to_sync iff the blob sha of
source_ref:source_path differs from the blob sha of origin/main:target_path
(each None when its rev-parse fails). -/
def filesToSyncList (w : GitWorld) (sourceRef : String) :
    List (String × String) → List (String × String)
  | [] => []
  | (s, t) :: rest =>
    if blobSha w sourceRef s ≠ blobSha w "origin/main" t then
      (s, t) :: filesToSyncList w sourceRef rest
    else
      filesToSyncList w sourceRef rest

/-- Translation of `run_sync(target_repo, source_ref, json_content,
json_changed)` (admin variant).  Besides the returned SyncResult, the model
exposes the argument passed to `sync_files_from_source` (`none` when that
call is skipped because files_to_sync is empty or json_content is falsy). -/
def run_sync_admin (w : GitWorld) (fs : String → Bool) (sourceRef : String)
    (jsonContent : Option (List MapItem)) (jsonChanged : Bool) :
    SyncResult × Option (List (String × String)) :=
  if truthyJson jsonContent then
    let syncMapping := get_sync_mapping jsonContent
    let filesToSync := filesToSyncList w sourceRef syncMapping
    let found := !filesToSync.isEmpty
    if filesToSync.isEmpty then
      (⟨jsonChanged, found, jsonChanged⟩, none)
    else
      let synced := (sync_files_from_source w sourceRef fs filesToSync).2
      (⟨jsonChanged || synced, found, jsonChanged⟩, some filesToSync)
  else
    (⟨jsonChanged, false, jsonChanged⟩, none)

theorem mem_filesToSyncList (w : GitWorld) (sourceRef : String)
    (L : List (String × String)) (s t : String) :
    (s, t) ∈ filesToSyncList w sourceRef L ↔
      ((s, t) ∈ L ∧ blobSha w sourceRef s ≠ blobSha w "origin/main" t) := by
  induction L with
  | nil => simp [filesToSyncList]
  | cons p rest ih =>
    obtain ⟨a, b⟩ := p
    by_cases h : blobSha w sourceRef a = blobSha w "origin/main" b
    · rw [show filesToSyncList w sourceRef ((a, b) :: rest) =
          filesToSyncList w sourceRef rest from by simp [filesToSyncList, h]]
      rw [ih, List.mem_cons]
      constructor
      · exact fun ⟨hm, hd⟩ => ⟨Or.inr hm, hd⟩
      · rintro ⟨heq | hm, hd⟩
        · exfalso
          rw [Prod.mk.injEq] at heq
          exact hd (heq.1 ▸ heq.2 ▸ h)
        · exact ⟨hm, hd⟩
    · rw [show filesToSyncList w sourceRef ((a, b) :: rest) =
          (a, b) :: filesToSyncList w sourceRef rest from by simp [filesToSyncList, h]]
      rw [List.mem_cons, ih, List.mem_cons]
      constructor
      · rintro (heq | ⟨hm, hd⟩)
        · refine ⟨Or.inl heq, ?_⟩
          rw [Prod.mk.injEq] at heq
          exact heq.1 ▸ heq.2 ▸ h
        · exact ⟨Or.inr hm, hd⟩
      · rintro ⟨heq | hm, hd⟩
        · exact Or.inl heq
        · exact Or.inr ⟨hm, hd⟩

/-- C1: in `run_sync` (admin variant) a mapping pair is selected for syncing
iff the blob sha of source_ref:source differs from that of origin/main:target
(None on command failure), and every pair actually passed to
`sync_files_from_source` has differing shas. -/
theorem run_sync_admin_selects (w : GitWorld) (fs : String → Bool)
    (sourceRef : String) (jc : Option (List MapItem)) (jsonChanged : Bool) :
    (∀ s t, (s, t) ∈ filesToSyncList w sourceRef (get_sync_mapping jc) ↔
      ((s, t) ∈ get_sync_mapping jc ∧
        blobSha w sourceRef s ≠ blobSha w "origin/main" t)) ∧
    (∀ l s t, (run_sync_admin w fs sourceRef jc jsonChanged).2 = some l →
      (s, t) ∈ l → blobSha w sourceRef s ≠ blobSha w "origin/main" t) := by
  refine ⟨fun s t => mem_filesToSyncList w sourceRef _ s t, ?_⟩
  intro l s t hsome hmem
  unfold run_sync_admin at hsome
  by_cases hj : truthyJson jc
  · rw [if_pos hj] at hsome
    by_cases he : (filesToSyncList w sourceRef (get_sync_mapping jc)).isEmpty
    · simp only [he, if_pos] at hsome
      exact absurd hsome (by simp)
    · simp only [he, if_neg, Bool.false_eq_true, if_false] at hsome
      have hl : l = filesToSyncList w sourceRef (get_sync_mapping jc) :=
        (Option.some.injEq _ _ ▸ hsome).symm
      subst hl
      exact ((mem_filesToSyncList w sourceRef _ s t).mp hmem).2
  · rw [if_neg hj] at hsome
    exact absurd hsome (by simp)

/-- Concrete git world used by witnesses: source_ref srcref holds file a with
sha s1 and every git show succeeds with output content; everything else is
absent (rev-parse fails). -/
def wEx : GitWorld where
  revParse := fun ref path => if ref = "srcref" && path = "a" then ("s1", 0) else ("x", 1)
  gitShow := fun _ _ => ("content", 0)

/-- Concrete JSON mapping used by witnesses: one item, source a, target b. -/
def jcEx : Option (List MapItem) := some [⟨some "a", some "b"⟩]

theorem run_sync_admin_selects_witness :
    blobSha wEx "srcref" "a" ≠ blobSha wEx "origin/main" "b" :=
  (run_sync_admin_selects wEx (fun _ => false) "srcref" jcEx true).2
    [("a", "b")] "a" "b" (by decide) (by decide)

/-- Concrete git world where every rev-parse and every git show fails, so a
synced pair always takes the removal branch. -/
def wRm : GitWorld where
  revParse := fun _ _ => ("x", 1)
  gitShow := fun _ _ => ("", 1)

theorem sync_files_from_source_spec_witness :
    FileOp.writeAdd "b" "content" ∈
      (sync_files_from_source wEx "srcref" (fun _ => false) [("a", "b")]).1 ∧
    sync_files_from_source wRm "srcref" (fun p => p == "b") [("a", "b")] =
      (FileOp.gitRm "b" ::
        (sync_files_from_source wRm "srcref"
          (upd (fun p => p == "b") "b" false) []).1, true) :=
  ⟨(sync_files_from_source_spec wEx "srcref" (fun _ => false) [("a", "b")]).2.1
      "a" "b" (by decide) (by decide),
    (sync_files_from_source_spec wRm "srcref" (fun p => p == "b") [("a", "b")]).2.2.2
      "a" "b" [] rfl (by decide) (by decide)⟩

/-- Side-effecting operations of `get_json_from_source`: writeJson c = write
the git show output c to the tracked JSON path; addJson = stage the tracked
JSON path with git add; rmJson = run git rm on it. -/
inductive JsonOp
  | writeJson (content : String)
  | addJson
  | rmJson
  deriving DecidableEq

/-- Boolean recognizer for writeJson operations (used to state decidably that
no write was performed). -/
def isWriteJson : JsonOp → Bool
  | JsonOp.writeJson _ => true
  | JsonOp.addJson => false
  | JsonOp.rmJson => false

/-- Translation of `get_json_from_source(source_ref, target_repo)` (admin
variant).  `localJson` is the state of the local tracked JSON file (none =
json_path does not exist, some c = exists with raw content c; JSON parsing is
modelled as the identity on the raw text).  Returns the emitted operations,
the returned json_content (raw text) and the json_changed flag. -/
def get_json_from_source (w : GitWorld) (localJson : Option String)
    (sourceRef : String) : List JsonOp × Option String × Bool :=
  let source_sha := blobSha w sourceRef TRACKED_JSON_PATH
  let target_sha := blobSha w "origin/main" TRACKED_JSON_PATH
  if source_sha = target_sha then
    ([], localJson, false)
  else
    match source_sha with
    | some _ =>
      let r := w.gitShow sourceRef TRACKED_JSON_PATH
      if r.2 = 0 ∧ r.1 ≠ "" then
        ([JsonOp.writeJson r.1, JsonOp.addJson], some r.1, true)
      else
        ([], none, true)
    | none =>
      if localJson.isSome then
        ([JsonOp.rmJson], none, true)
      else
        ([], none, true)

/-- Git world refuting C6 as stated: the tracked JSON file exists at the
source ref (rev-parse yields sha abc) but is an empty blob (git show succeeds
with empty stdout), and is absent from origin/main. -/
def wC6 : GitWorld where
  revParse := fun ref _ => if ref = "sref" then ("abc", 0) else ("x", 1)
  gitShow := fun _ _ => ("", 0)

/-- C6 counterexample: in the world wC6 with an existing local file,
`get_json_from_source` returns json_changed=True yet neither writes the
source version nor runs git rm — refuting the claim that when the SHAs differ
it always does one of the two. -/
theorem get_json_from_source_C6_counterexample :
    ¬ ((get_json_from_source wC6 (some "old") "sref").2.2 = true →
      ((get_json_from_source wC6 (some "old") "sref").1.any isWriteJson = true ∨
        JsonOp.rmJson ∈ (get_json_from_source wC6 (some "old") "sref").1)) := by
  decide

/-- C6 (amended): `get_json_from_source` returns json_changed=False and emits
no operation exactly when the two blob SHAs agree (including both missing),
returning the local file content; when they differ it returns
json_changed=True and: writes the git show output and stages it when the read
succeeds non-empty; runs git rm when the file is absent from the source ref
and the local file exists; and performs no operation otherwise (failed or
empty read, or absent from both source ref and working tree). -/
theorem get_json_from_source_spec (w : GitWorld) (localJson : Option String)
    (sourceRef : String) :
    (((get_json_from_source w localJson sourceRef).2.2 = false ∧
        (get_json_from_source w localJson sourceRef).1 = []) ↔
      blobSha w sourceRef TRACKED_JSON_PATH =
        blobSha w "origin/main" TRACKED_JSON_PATH) ∧
    (blobSha w sourceRef TRACKED_JSON_PATH =
        blobSha w "origin/main" TRACKED_JSON_PATH →
      get_json_from_source w localJson sourceRef = ([], localJson, false)) ∧
    (blobSha w sourceRef TRACKED_JSON_PATH ≠
        blobSha w "origin/main" TRACKED_JSON_PATH →
      (get_json_from_source w localJson sourceRef).2.2 = true ∧
      (((blobSha w sourceRef TRACKED_JSON_PATH).isSome = true ∧
          showOk w sourceRef TRACKED_JSON_PATH ∧
          (get_json_from_source w localJson sourceRef).1 =
            [JsonOp.writeJson (w.gitShow sourceRef TRACKED_JSON_PATH).1,
              JsonOp.addJson]) ∨
        ((blobSha w sourceRef TRACKED_JSON_PATH).isSome = true ∧
          ¬ showOk w sourceRef TRACKED_JSON_PATH ∧
          (get_json_from_source w localJson sourceRef).1 = []) ∨
        (blobSha w sourceRef TRACKED_JSON_PATH = none ∧
          localJson.isSome = true ∧
          (get_json_from_source w localJson sourceRef).1 = [JsonOp.rmJson]) ∨
        (blobSha w sourceRef TRACKED_JSON_PATH = none ∧ localJson = none ∧
          (get_json_from_source w localJson sourceRef).1 = []))) := by
  by_cases heq : blobSha w sourceRef TRACKED_JSON_PATH =
      blobSha w "origin/main" TRACKED_JSON_PATH
  · refine ⟨?_, fun _ => ?_, fun hne => absurd heq hne⟩
    · simp [get_json_from_source, heq]
    · simp [get_json_from_source, heq]
  · refine ⟨?_, fun h => absurd h heq, fun _ => ?_⟩
    · cases hs : blobSha w sourceRef TRACKED_JSON_PATH with
      | none =>
        cases hl : localJson with
        | none => simp [get_json_from_source, hs ▸ heq, hs, hl]
        | some c => simp [get_json_from_source, hs ▸ heq, hs, hl]
      | some sha =>
        by_cases hok : showOk w sourceRef TRACKED_JSON_PATH
        · simp [get_json_from_source, hs ▸ heq, hs, hok.1, hok.2]
        · have hok' : ¬ ((w.gitShow sourceRef TRACKED_JSON_PATH).2 = 0 ∧
              (w.gitShow sourceRef TRACKED_JSON_PATH).1 ≠ "") := hok
          simp [get_json_from_source, hs ▸ heq, hs, if_neg hok']
    · cases hs : blobSha w sourceRef TRACKED_JSON_PATH with
      | none =>
        cases hl : localJson with
        | none =>
          refine ⟨?_, Or.inr (Or.inr (Or.inr ⟨rfl, rfl, ?_⟩))⟩ <;>
            simp [get_json_from_source, hs ▸ heq, hs, hl]
        | some c =>
          refine ⟨?_, Or.inr (Or.inr (Or.inl ⟨rfl, by simp [hl], ?_⟩))⟩ <;>
            simp [get_json_from_source, hs ▸ heq, hs, hl]
      | some sha =>
        by_cases hok : showOk w sourceRef TRACKED_JSON_PATH
        · refine ⟨?_, Or.inl ⟨by simp [hs], hok, ?_⟩⟩ <;>
            simp [get_json_from_source, hs ▸ heq, hs, hok.1, hok.2]
        · have hok' : ¬ ((w.gitShow sourceRef TRACKED_JSON_PATH).2 = 0 ∧
              (w.gitShow sourceRef TRACKED_JSON_PATH).1 ≠ "") := hok
          refine ⟨?_, Or.inr (Or.inl ⟨by simp [hs], hok, ?_⟩)⟩ <;>
            simp [get_json_from_source, hs ▸ heq, hs, if_neg hok']

theorem get_json_from_source_spec_witness :
    get_json_from_source wC6 (some "old") "parent-repo/main" =
      ([], some "old", false) :=
  (get_json_from_source_spec wC6 (some "old") "parent-repo/main").2.1 (by decide)

/-- String form of `Path(p).parent` for the relative paths used by the
scripts: drop the last path component, "." when there is none (path
separators are normalized as pathlib does for plain relative paths). -/
def parentDir (p : String) : String :=
  let comps := (p.splitOn "/").filter (fun c => c ≠ "")
  if comps.length ≤ 1 then "." else String.intercalate "/" comps.dropLast

/-- Side-effecting operations of `sync_files_from_pr` (external_pr_files
variant): mkdirDashP d = run mkdir -p d; writeAdd t c = write content c to
repo_path/t and stage it with git add. -/
inductive PrFileOp
  | mkdirDashP (dir : String)
  | writeAdd (target content : String)
  deriving DecidableEq

/-- Translation of `sync_files_from_pr(repo_path, remote_name, pr_branch,
sync_mapping)`; `remoteRef` stands for the concatenation
remote_name/pr_branch.  For each pair: mkdir -p the target's parent
directory, then on a successful non-empty `git show` write the blob to the
target and stage it (this variant never removes files). -/
def sync_files_from_pr (w : GitWorld) (remoteRef : String) :
    List (String × String) → List PrFileOp × Bool
  | [] => ([], false)
  | (sourcePath, targetPath) :: rest =>
    let dirOps := if parentDir targetPath ≠ "" then
        [PrFileOp.mkdirDashP (parentDir targetPath)] else []
    if showOk w remoteRef sourcePath then
      let res := sync_files_from_pr w remoteRef rest
      (dirOps ++ PrFileOp.writeAdd targetPath (w.gitShow remoteRef sourcePath).1 :: res.1,
        true)
    else
      let res := sync_files_from_pr w remoteRef rest
      (dirOps ++ res.1, res.2)

/-- Targets associated to a source file by the source_to_targets dict built in
`handle_deleted_files` (insertion order preserved, as in Python dicts). -/
def targetsOf (mapping : List (String × String)) (srcFile : String) : List String :=
  (mapping.filter (fun p => p.1 = srcFile)).map (fun p => p.2)

/-- Inner loop of `handle_deleted_files` over the targets of one deleted
file: skip falsy targets and non-existing paths, otherwise remove the target
(git rm, falling back to rm -f) and record a change. -/
def handleTargets (fs : String → Bool) : List String → (String → Bool) × Bool
  | [] => (fs, false)
  | t :: rest =>
    if t = "" then handleTargets fs rest
    else if fs t then
      let res := handleTargets (upd fs t false) rest
      (res.1, true)
    else
      handleTargets fs rest

/-- Translation of `handle_deleted_files(repo_path, deleted_files,
sync_mapping)`: for every deleted file, remove each mapped existing target;
returns the updated existence oracle and whether any file was removed. -/
def handle_deleted_files (fs : String → Bool) (mapping : List (String × String)) :
    List String → (String → Bool) × Bool
  | [] => (fs, false)
  | d :: rest =>
    let r1 := handleTargets fs (targetsOf mapping d)
    let r2 := handle_deleted_files r1.1 mapping rest
    (r2.1, r1.2 || r2.2)

/-- Inner loop of the selection in `run_sync` (external_pr_files variant):
all mapping pairs whose source equals the given changed file. -/
def matchesFor (file : String) : List (String × String) → List (String × String)
  | [] => []
  | (s, t) :: rest =>
    if s = file then (s, t) :: matchesFor file rest else matchesFor file rest

/-- Selection loop of `run_sync` (external_pr_files variant): for each
changed file other than autosync/test_files.json, append every mapping pair
whose source equals it. -/
def syncNeededFiles (mapping : List (String × String)) : List String → List (String × String)
  | [] => []
  | f :: rest =>
    if f = "autosync/test_files.json" then syncNeededFiles mapping rest
    else matchesFor f mapping ++ syncNeededFiles mapping rest

/-- Fields of the SyncConfig dataclass that `run_sync` (external_pr_files
variant) reads. -/
structure SyncConfig where
  changed_files : List String
  deleted_files : List String
  json_content : Option (List MapItem)
  json_changed : Bool

/-- sync_mapping as computed in `run_sync` (external_pr_files variant):
`get_sync_mapping(json_content) if json_content else []`. -/
def syncMappingOf (cfg : SyncConfig) : List (String × String) :=
  if truthyJson cfg.json_content then get_sync_mapping cfg.json_content else []

/-- has_deletions as computed in `run_sync` (external_pr_files variant): the
`handle_deleted_files` call guarded by `if deleted_files and sync_mapping`. -/
def deletionsFlag (fs : String → Bool) (cfg : SyncConfig) : Bool :=
  if !cfg.deleted_files.isEmpty && !(syncMappingOf cfg).isEmpty then
    (handle_deleted_files fs (syncMappingOf cfg) cfg.deleted_files).2
  else false

/-- Translation of `run_sync(sync_config)` (external_pr_files variant). -/
def run_sync_ext (w : GitWorld) (fs : String → Bool) (remoteRef : String)
    (cfg : SyncConfig) : SyncResult :=
  let sync_needed_files := syncNeededFiles (syncMappingOf cfg) cfg.changed_files
  let has_synced := if sync_needed_files.isEmpty then false
    else (sync_files_from_pr w remoteRef sync_needed_files).2
  let has_deletions := deletionsFlag fs cfg
  { has_changes := cfg.json_changed || has_synced || has_deletions,
    files_to_sync_found := !sync_needed_files.isEmpty || has_deletions,
    json_changed := cfg.json_changed }

theorem mem_matchesFor (f a b : String) (mapping : List (String × String)) :
    (a, b) ∈ matchesFor f mapping ↔ ((a, b) ∈ mapping ∧ a = f) := by
  induction mapping with
  | nil => simp [matchesFor]
  | cons p rest ih =>
    obtain ⟨s, t⟩ := p
    by_cases h : s = f
    · rw [show matchesFor f ((s, t) :: rest) = (s, t) :: matchesFor f rest from by
        simp [matchesFor, h]]
      rw [List.mem_cons, ih, List.mem_cons]
      constructor
      · rintro (heq | ⟨hm, ha⟩)
        · rw [Prod.mk.injEq] at heq
          exact ⟨Or.inl (by rw [heq.1, heq.2]), heq.1.trans h⟩
        · exact ⟨Or.inr hm, ha⟩
      · rintro ⟨heq | hm, ha⟩
        · exact Or.inl heq
        · exact Or.inr ⟨hm, ha⟩
    · rw [show matchesFor f ((s, t) :: rest) = matchesFor f rest from by
        simp [matchesFor, h]]
      rw [ih, List.mem_cons]
      constructor
      · exact fun ⟨hm, ha⟩ => ⟨Or.inr hm, ha⟩
      · rintro ⟨heq | hm, ha⟩
        · exfalso
          rw [Prod.mk.injEq] at heq
          exact h (heq.1.symm.trans ha)
        · exact ⟨hm, ha⟩

theorem mem_syncNeededFiles (mapping : List (String × String))
    (changed : List String) (f t : String) :
    (f, t) ∈ syncNeededFiles mapping changed ↔
      (f ∈ changed ∧ f ≠ "autosync/test_files.json" ∧ (f, t) ∈ mapping) := by
  induction changed with
  | nil => simp [syncNeededFiles]
  | cons c rest ih =>
    by_cases h : c = "autosync/test_files.json"
    · rw [show syncNeededFiles mapping (c :: rest) = syncNeededFiles mapping rest from by
        simp [syncNeededFiles, h]]
      rw [ih, List.mem_cons]
      constructor
      · exact fun ⟨hm, hne, hp⟩ => ⟨Or.inr hm, hne, hp⟩
      · rintro ⟨heq | hm, hne, hp⟩
        · exact absurd (heq.trans h) hne
        · exact ⟨hm, hne, hp⟩
    · rw [show syncNeededFiles mapping (c :: rest) =
          matchesFor c mapping ++ syncNeededFiles mapping rest from by
        simp [syncNeededFiles, h]]
      rw [List.mem_append, mem_matchesFor, ih, List.mem_cons]
      constructor
      · rintro (⟨hp, ha⟩ | ⟨hm, hne, hp⟩)
        · exact ⟨Or.inl ha, ha ▸ h, hp⟩
        · exact ⟨Or.inr hm, hne, hp⟩
      · rintro ⟨heq | hm, hne, hp⟩
        · exact Or.inl ⟨hp, heq⟩
        · exact Or.inr ⟨hm, hne, hp⟩

theorem handleTargets_sound (fs : String → Bool) (ts : List String) :
    (handleTargets fs ts).2 = true → ∃ t ∈ ts, t ≠ "" := by
  induction ts generalizing fs with
  | nil => simp [handleTargets]
  | cons t rest ih =>
    intro h
    by_cases hte : t = ""
    · rw [show handleTargets fs (t :: rest) = handleTargets fs rest from by
        simp [handleTargets, hte]] at h
      obtain ⟨u, hu, hne⟩ := ih fs h
      exact ⟨u, List.mem_cons_of_mem _ hu, hne⟩
    · by_cases hf : fs t
      · exact ⟨t, List.mem_cons_self _ _, hte⟩
      · rw [show handleTargets fs (t :: rest) = handleTargets fs rest from by
          simp [handleTargets, hte, hf]] at h
        obtain ⟨u, hu, hne⟩ := ih fs h
        exact ⟨u, List.mem_cons_of_mem _ hu, hne⟩

theorem mem_targetsOf (mapping : List (String × String)) (d t : String) :
    t ∈ targetsOf mapping d ↔ (d, t) ∈ mapping := by
  simp only [targetsOf, List.mem_map, List.mem_filter]
  constructor
  · rintro ⟨⟨a, b⟩, ⟨hm, hd⟩, ht⟩
    simp only [decide_eq_true_eq] at hd
    have ht2 : b = t := ht
    rw [← hd, ← ht2]
    exact hm
  · intro hm
    exact ⟨(d, t), ⟨hm, by simp⟩, rfl⟩

theorem handle_deleted_files_sound (fs : String → Bool)
    (mapping : List (String × String)) (dels : List String) :
    (handle_deleted_files fs mapping dels).2 = true →
      ∃ d ∈ dels, ∃ t, (d, t) ∈ mapping := by
  induction dels generalizing fs with
  | nil => simp [handle_deleted_files]
  | cons d rest ih =>
    intro h
    rw [show handle_deleted_files fs mapping (d :: rest) =
        ((handle_deleted_files (handleTargets fs (targetsOf mapping d)).1 mapping rest).1,
          (handleTargets fs (targetsOf mapping d)).2 ||
            (handle_deleted_files (handleTargets fs (targetsOf mapping d)).1 mapping rest).2)
        from rfl] at h
    rcases Bool.or_eq_true_iff.mp h with h1 | h2
    · obtain ⟨t, ht, _⟩ := handleTargets_sound fs _ h1
      exact ⟨d, List.mem_cons_self _ _, t, (mem_targetsOf mapping d t).mp ht⟩
    · obtain ⟨u, hu, t, hm⟩ := ih _ h2
      exact ⟨u, List.mem_cons_of_mem _ hu, t, hm⟩

/-- C2: in `run_sync` (external_pr_files variant) a changed file contributes
pairs to sync_needed_files iff it is not autosync/test_files.json and equals
the source of a mapping pair; files_to_sync_found is True exactly when such a
match exists or `handle_deleted_files` removed a file; and a removal implies
some deleted file is the source of a mapping pair. -/
theorem run_sync_ext_spec (w : GitWorld) (fs : String → Bool) (remoteRef : String)
    (cfg : SyncConfig) :
    (∀ f t, (f, t) ∈ syncNeededFiles (syncMappingOf cfg) cfg.changed_files ↔
      (f ∈ cfg.changed_files ∧ f ≠ "autosync/test_files.json" ∧
        (f, t) ∈ syncMappingOf cfg)) ∧
    ((run_sync_ext w fs remoteRef cfg).files_to_sync_found = true ↔
      ((∃ f t, f ∈ cfg.changed_files ∧ f ≠ "autosync/test_files.json" ∧
          (f, t) ∈ syncMappingOf cfg) ∨
        deletionsFlag fs cfg = true)) ∧
    (deletionsFlag fs cfg = true →
      ∃ d ∈ cfg.deleted_files, ∃ t, (d, t) ∈ syncMappingOf cfg) := by
  refine ⟨fun f t => mem_syncNeededFiles _ _ f t, ?_, ?_⟩
  · have hfield : (run_sync_ext w fs remoteRef cfg).files_to_sync_found =
        (!(syncNeededFiles (syncMappingOf cfg) cfg.changed_files).isEmpty ||
          deletionsFlag fs cfg) := rfl
    rw [hfield, Bool.or_eq_true]
    have h1 : (!(syncNeededFiles (syncMappingOf cfg) cfg.changed_files).isEmpty) = true ↔
        syncNeededFiles (syncMappingOf cfg) cfg.changed_files ≠ [] := by
      cases syncNeededFiles (syncMappingOf cfg) cfg.changed_files <;> simp
    have h2 : syncNeededFiles (syncMappingOf cfg) cfg.changed_files ≠ [] ↔
        ∃ f t, f ∈ cfg.changed_files ∧ f ≠ "autosync/test_files.json" ∧
          (f, t) ∈ syncMappingOf cfg := by
      constructor
      · intro hne
        obtain ⟨p, hp⟩ := List.exists_mem_of_ne_nil _ hne
        obtain ⟨f, t⟩ := p
        obtain ⟨hc, hj, hm⟩ := (mem_syncNeededFiles _ _ f t).mp hp
        exact ⟨f, t, hc, hj, hm⟩
      · rintro ⟨f, t, hc, hj, hm⟩ hnil
        have hmem := (mem_syncNeededFiles (syncMappingOf cfg) cfg.changed_files f t).mpr
          ⟨hc, hj, hm⟩
        rw [hnil] at hmem
        exact absurd hmem (List.not_mem_nil _)
    rw [h1, h2]
  · intro hdel
    unfold deletionsFlag at hdel
    by_cases hg : (!cfg.deleted_files.isEmpty && !(syncMappingOf cfg).isEmpty) = true
    · rw [if_pos hg] at hdel
      exact handle_deleted_files_sound fs _ _ hdel
    · rw [if_neg hg] at hdel
      exact absurd hdel (by simp)

theorem run_sync_ext_spec_witness :
    ∃ d ∈ ["a"], ∃ t, (d, t) ∈ syncMappingOf ⟨["a"], ["a"], jcEx, false⟩ :=
  (run_sync_ext_spec wEx (fun p => p == "b") "parent-repo/br"
    ⟨["a"], ["a"], jcEx, false⟩).2.2 (by decide)

/-- Action performed by `create_or_update_pr` (identical logic in both script
variants): create a new PR, comment on an existing PR, or do nothing.  It is
modelled downstream of the JSON layer: prNumbers is the list of "number"
fields of the PRs printed by `gh pr list --head branch_name --json number`
(every listed PR carries its number). -/
inductive PrAction
  | createPR
  | comment (n : Int) (body : String)
  | doNothing
  deriving DecidableEq

/-- target_pr_number as computed by `create_or_update_pr`: the number of the
first PR listed by `gh pr list` when that command succeeded, None
otherwise (a failed or empty listing leaves it None). -/
def targetPrNumber (listRC : Int) (prNumbers : List Int) : Option Int :=
  if listRC = 0 then prNumbers.head? else none

/-- has_commits as computed by `create_or_update_pr`:
`return_code == 0 and bool(stdout and stdout.strip())` for
`git log --oneline origin/main..branch_name`. -/
def hasCommits (logRC : Int) (logOut : String) : Prop :=
  logRC = 0 ∧ pyStrip logOut ≠ ""

instance (logRC : Int) (logOut : String) : Decidable (hasCommits logRC logOut) :=
  inferInstanceAs (Decidable (_ ∧ _))

/-- Translation of `create_or_update_pr(target_repo, branch_name, repo_name,
pr_number, repo_path)`: with commits ahead of origin/main, create a PR when no
PR is listed for the head branch and otherwise comment "Automatically
updated" on the first listed one; without commits, do nothing. -/
def create_or_update_pr (listRC : Int) (prNumbers : List Int)
    (logRC : Int) (logOut : String) : PrAction :=
  let target_pr_number := targetPrNumber listRC prNumbers
  if hasCommits logRC logOut then
    match target_pr_number with
    | none => PrAction.createPR
    | some n => PrAction.comment n "Automatically updated"
  else
    PrAction.doNothing

/-- C3: `create_or_update_pr` runs `gh pr create` iff the branch has commits
ahead of origin/main and `gh pr list --head` yielded no existing PR; it
comments "Automatically updated" iff there are commits and an existing PR is
listed, and then on the first listed PR; without commits it neither creates
nor comments.  The run-code hypotheses restrict to the exit codes the
`handles_console_error(ok_codes=(0, 1))` wrappers let through. -/
theorem create_or_update_pr_spec (listRC logRC : Int) (prNumbers : List Int)
    (logOut : String) (h1 : listRC = 0 ∨ listRC = 1) (h2 : logRC = 0 ∨ logRC = 1) :
    (create_or_update_pr listRC prNumbers logRC logOut = PrAction.createPR ↔
      (hasCommits logRC logOut ∧ targetPrNumber listRC prNumbers = none)) ∧
    (∀ n body, create_or_update_pr listRC prNumbers logRC logOut = PrAction.comment n body ↔
      (hasCommits logRC logOut ∧ targetPrNumber listRC prNumbers = some n ∧
        body = "Automatically updated")) ∧
    (∀ n, targetPrNumber listRC prNumbers = some n → prNumbers.head? = some n) ∧
    (¬ hasCommits logRC logOut →
      create_or_update_pr listRC prNumbers logRC logOut = PrAction.doNothing) := by
  refine ⟨?_, ?_, ?_, ?_⟩
  · by_cases hc : hasCommits logRC logOut
    · cases htp : targetPrNumber listRC prNumbers with
      | none => simp [create_or_update_pr, hc, htp]
      | some n => simp [create_or_update_pr, hc, htp]
    · simp [create_or_update_pr, hc]
  · intro n body
    by_cases hc : hasCommits logRC logOut
    · cases htp : targetPrNumber listRC prNumbers with
      | none => simp [create_or_update_pr, hc, htp]
      | some m =>
        simp only [create_or_update_pr, if_pos hc, htp]
        constructor
        · intro h
          rw [PrAction.comment.injEq] at h
          exact ⟨hc, by rw [h.1], h.2.symm⟩
        · rintro ⟨_, hsome, hbody⟩
          rw [Option.some.injEq] at hsome
          rw [hsome, hbody]
    · simp [create_or_update_pr, hc]
  · intro n h
    unfold targetPrNumber at h
    by_cases hl : listRC = 0
    · rw [if_pos hl] at h
      exact h
    · rw [if_neg hl] at h
      exact absurd h (by simp)
  · intro hc
    simp [create_or_update_pr, hc]

theorem create_or_update_pr_spec_witness :
    create_or_update_pr 0 [7] 0 "abc" = PrAction.comment 7 "Automatically updated" :=
  ((create_or_update_pr_spec 0 0 [7] "abc" (Or.inl rfl) (Or.inl rfl)).2.1 7
    "Automatically updated").mpr ⟨⟨rfl, by decide⟩, by decide, rfl⟩

/-- Side-effecting git operations of `commit_and_push_changes` in
copy_script.py: stage everything, commit with a message, push a refspec to a
URL. -/
inductive PushOp
  | add
  | commit (msg : String)
  | push (url refspec : String)
  deriving DecidableEq

/-- Token-authenticated URL built by copy_script.py:
`repo_url.replace('https://', f'https://oauth2:TOKEN@')`. -/
def authUrl (repoUrl token : String) : String :=
  repoUrl.replace "https://" ("https://oauth2:" ++ token ++ "@")

/-- Translation of `commit_and_push_changes(repo_path, repo_url,
github_token)` in copy_script.py: after `git add .`, stop and return False
when `git status --porcelain` prints nothing, else commit "Auto-sync files",
push HEAD:main to the token-authenticated URL and return True.  `statusOut`
is the stdout of the status command. -/
def commit_and_push_changes (statusOut repoUrl token : String) : List PushOp × Bool :=
  if pyStrip statusOut = "" then
    ([PushOp.add], false)
  else
    ([PushOp.add, PushOp.commit "Auto-sync files",
      PushOp.push (authUrl repoUrl token) "HEAD:main"], true)

/-- C5: `commit_and_push_changes` returns False with no commit and no push
exactly when the staged status output is empty; otherwise it commits with
message "Auto-sync files", pushes HEAD:main to the token-authenticated target
URL and returns True. -/
theorem commit_and_push_changes_spec (statusOut repoUrl token : String) :
    ((commit_and_push_changes statusOut repoUrl token).2 = false ↔
      pyStrip statusOut = "") ∧
    (pyStrip statusOut = "" →
      commit_and_push_changes statusOut repoUrl token = ([PushOp.add], false)) ∧
    (pyStrip statusOut ≠ "" →
      commit_and_push_changes statusOut repoUrl token =
        ([PushOp.add, PushOp.commit "Auto-sync files",
          PushOp.push (authUrl repoUrl token) "HEAD:main"], true)) := by
  by_cases h : pyStrip statusOut = ""
  · exact ⟨by simp [commit_and_push_changes, h], fun _ => by simp [commit_and_push_changes, h],
      fun hne => absurd h hne⟩
  · exact ⟨by simp [commit_and_push_changes, h], fun heq => absurd heq h,
      fun _ => by simp [commit_and_push_changes, h]⟩

theorem commit_and_push_changes_spec_witness :
    commit_and_push_changes "" "https://github.com/u/r.git" "tok" =
      ([PushOp.add], false) :=
  (commit_and_push_changes_spec "" "https://github.com/u/r.git" "tok").2.1 (by decide)

/-- State of a filesystem path for copy_script.py: a regular file, a
directory, or nothing. -/
inductive FSEntry
  | file
  | dir
  | absent
  deriving DecidableEq

/-- Pointwise update of a path-to-entry filesystem oracle. -/
def updFS (f : String → FSEntry) (k : String) (v : FSEntry) : String → FSEntry :=
  fun x => if x = k then v else f x

/-- Side-effecting operations of `copy_files` in copy_script.py:
unlinkFile p = `Path(p).unlink()`; mkdirP p = `Path(p).mkdir(parents=True,
exist_ok=True)`; copyFile s d = `shutil.copy2(s, d)`; printMissing s = the
printed File is not found message for the caught FileNotFoundError. -/
inductive CopyOp
  | unlinkFile (p : String)
  | mkdirP (p : String)
  | copyFile (src dst : String)
  | printMissing (src : String)
  deriving DecidableEq

/-- Pydantic ModelItem of copy_script.py: required string fields source and
target. -/
structure ModelItem where
  source : String
  target : String

/-- String form of `Path(s).name`: the last path component ("" when there is
none), with separators normalized as pathlib does for plain relative paths. -/
def baseName (s : String) : String :=
  ((((s.splitOn "/").filter (fun c => c ≠ ""))).getLast?).getD ""

/-- String form of the pathlib join `Path(a) / b` for the plain relative
segments used by copy_script.py. -/
def pjoin (a b : String) : String := if b = "" then a else a ++ "/" ++ b

/-- Translation of `copy_files(source_repo_path, target_repo_path, files)` in
copy_script.py.  `srcEx` tells whether a source-repository file exists (the
source repo is a separate clone, never written by this loop); `fs` is the
target-side filesystem, threaded through the loop.  For each item: the
destination is target_repo_path/item.target/basename(item.source); when the
destination's parent exists as a regular file it is unlinked; the parent is
then created as a directory; the copy's FileNotFoundError (missing source) is
caught and reported by a printed message. -/
def copy_files (srcEx : String → Bool) (sourceRepoPath targetRepoPath : String)
    (fs : String → FSEntry) : List ModelItem → List CopyOp
  | [] => []
  | item :: rest =>
    let fullSource := pjoin sourceRepoPath item.source
    let parent := pjoin targetRepoPath item.target
    let fullTarget := pjoin parent (baseName item.source)
    let unlinkOps := if fs parent = FSEntry.file then [CopyOp.unlinkFile parent] else []
    let fs2 := updFS fs parent FSEntry.dir
    if srcEx fullSource then
      unlinkOps ++ CopyOp.mkdirP parent :: CopyOp.copyFile fullSource fullTarget ::
        copy_files srcEx sourceRepoPath targetRepoPath
          (updFS fs2 fullTarget FSEntry.file) rest
    else
      unlinkOps ++ CopyOp.mkdirP parent :: CopyOp.printMissing fullSource ::
        copy_files srcEx sourceRepoPath targetRepoPath fs2 rest

/-- C8: `copy_files` writes each copied file to
target_repo_path/item.target/basename(item.source) — the target field is
treated as a directory with the source basename appended — and when that
destination's parent exists as a regular file, the file is unlinked and the
path recreated as a directory before the copy. -/
theorem copy_files_destination_layout (srcEx : String → Bool)
    (sourceRepoPath targetRepoPath : String) (fs : String → FSEntry)
    (item : ModelItem) (rest : List ModelItem) :
    ∃ tailOps,
      copy_files srcEx sourceRepoPath targetRepoPath fs (item :: rest) =
        (if fs (pjoin targetRepoPath item.target) = FSEntry.file
          then [CopyOp.unlinkFile (pjoin targetRepoPath item.target)] else []) ++
        CopyOp.mkdirP (pjoin targetRepoPath item.target) ::
        (if srcEx (pjoin sourceRepoPath item.source)
          then CopyOp.copyFile (pjoin sourceRepoPath item.source)
            (pjoin (pjoin targetRepoPath item.target) (baseName item.source))
          else CopyOp.printMissing (pjoin sourceRepoPath item.source)) ::
        tailOps := by
  by_cases hs : srcEx (pjoin sourceRepoPath item.source)
  · refine ⟨copy_files srcEx sourceRepoPath targetRepoPath
      (updFS (updFS fs (pjoin targetRepoPath item.target) FSEntry.dir)
        (pjoin (pjoin targetRepoPath item.target) (baseName item.source)) FSEntry.file)
      rest, ?_⟩
    simp [copy_files, hs]
  · refine ⟨copy_files srcEx sourceRepoPath targetRepoPath
      (updFS fs (pjoin targetRepoPath item.target) FSEntry.dir) rest, ?_⟩
    simp [copy_files, hs]

/-- Operations emitted for one item of the `copy_files` loop: the optional
unlink of a file in the way of the parent directory, the mkdir of the parent,
and the copy or the printed missing-file message. -/
def copyStepOps (srcEx : String → Bool) (sourceRepoPath targetRepoPath : String)
    (fs : String → FSEntry) (item : ModelItem) : List CopyOp :=
  (if fs (pjoin targetRepoPath item.target) = FSEntry.file
    then [CopyOp.unlinkFile (pjoin targetRepoPath item.target)] else []) ++
  CopyOp.mkdirP (pjoin targetRepoPath item.target) ::
  [if srcEx (pjoin sourceRepoPath item.source)
    then CopyOp.copyFile (pjoin sourceRepoPath item.source)
      (pjoin (pjoin targetRepoPath item.target) (baseName item.source))
    else CopyOp.printMissing (pjoin sourceRepoPath item.source)]

/-- Target-side filesystem after one item of the `copy_files` loop. -/
def copyStepFS (srcEx : String → Bool) (sourceRepoPath targetRepoPath : String)
    (fs : String → FSEntry) (item : ModelItem) : String → FSEntry :=
  let fs2 := updFS fs (pjoin targetRepoPath item.target) FSEntry.dir
  if srcEx (pjoin sourceRepoPath item.source) then
    updFS fs2 (pjoin (pjoin targetRepoPath item.target) (baseName item.source))
      FSEntry.file
  else
    fs2

theorem copy_files_cons (srcEx : String → Bool)
    (sourceRepoPath targetRepoPath : String) (fs : String → FSEntry)
    (item : ModelItem) (rest : List ModelItem) :
    copy_files srcEx sourceRepoPath targetRepoPath fs (item :: rest) =
      copyStepOps srcEx sourceRepoPath targetRepoPath fs item ++
        copy_files srcEx sourceRepoPath targetRepoPath
          (copyStepFS srcEx sourceRepoPath targetRepoPath fs item) rest := by
  by_cases hs : srcEx (pjoin sourceRepoPath item.source) <;>
    by_cases hp : fs (pjoin targetRepoPath item.target) = FSEntry.file <;>
    simp [copy_files, copyStepOps, copyStepFS, hs, hp]

/-- Recognizer for the one operation `copy_files` emits per processed item
(either the successful copy or the printed missing-file message). -/
def isItemOp : CopyOp → Bool
  | CopyOp.copyFile _ _ => true
  | CopyOp.printMissing _ => true
  | CopyOp.unlinkFile _ => false
  | CopyOp.mkdirP _ => false

theorem copyStepOps_filter_length (srcEx : String → Bool)
    (sourceRepoPath targetRepoPath : String) (fs : String → FSEntry)
    (item : ModelItem) :
    ((copyStepOps srcEx sourceRepoPath targetRepoPath fs item).filter isItemOp).length
      = 1 := by
  by_cases hs : srcEx (pjoin sourceRepoPath item.source) <;>
    by_cases hp : fs (pjoin targetRepoPath item.target) = FSEntry.file <;>
    simp [copyStepOps, isItemOp, hs, hp]

/-- C9: `copy_files` never propagates a missing-source error: every item of
the list is processed (one copy-or-print operation per item, so an early item
with a missing source does not stop the later ones), and each item whose
source file is missing yields the printed message. -/
theorem copy_files_processes_all (srcEx : String → Bool)
    (sourceRepoPath targetRepoPath : String) (fs : String → FSEntry)
    (items : List ModelItem) :
    ((copy_files srcEx sourceRepoPath targetRepoPath fs items).filter isItemOp).length =
      items.length ∧
    (∀ item ∈ items, srcEx (pjoin sourceRepoPath item.source) = false →
      CopyOp.printMissing (pjoin sourceRepoPath item.source) ∈
        copy_files srcEx sourceRepoPath targetRepoPath fs items) := by
  induction items generalizing fs with
  | nil => simp [copy_files]
  | cons item rest ih =>
    constructor
    · rw [copy_files_cons, List.filter_append, List.length_append,
        copyStepOps_filter_length, (ih _).1, List.length_cons, Nat.add_comm]
    · intro it hit hmiss
      rw [copy_files_cons, List.mem_append]
      rcases List.mem_cons.mp hit with heq | hm
      · subst heq
        refine Or.inl ?_
        have : CopyOp.printMissing (pjoin sourceRepoPath it.source) ∈
            [if srcEx (pjoin sourceRepoPath it.source)
              then CopyOp.copyFile (pjoin sourceRepoPath it.source)
                (pjoin (pjoin targetRepoPath it.target) (baseName it.source))
              else CopyOp.printMissing (pjoin sourceRepoPath it.source)] := by
          simp [hmiss]
        unfold copyStepOps
        exact List.mem_append_right _ (List.mem_cons_of_mem _ this)
      · exact Or.inr ((ih _).2 it hm hmiss)

theorem copy_files_processes_all_witness :
    CopyOp.printMissing "src/a.txt" ∈
      copy_files (fun _ => false) "src" "tgt" (fun _ => FSEntry.absent)
        [⟨"a.txt", "d"⟩] :=
  (copy_files_processes_all (fun _ => false) "src" "tgt" (fun _ => FSEntry.absent)
    [⟨"a.txt", "d"⟩]).2 ⟨"a.txt", "d"⟩ (List.mem_cons_self _ _) rfl

/-- Events observable during one call of the wrapper produced by the `outer`
decorator in time-decorator.py: a time.time() read, a call of the wrapped
function returning r, or a time.sleep. -/
inductive TEvent (α : Type)
  | timeRead (t : Int)
  | call (r : α)
  | sleepFor (n : Nat)
  deriving DecidableEq

/-- Recognizer for call events. -/
def isCallEv {α : Type} : TEvent α → Bool
  | TEvent.call _ => true
  | TEvent.timeRead _ => false
  | TEvent.sleepFor _ => false

/-- Translation of the `inner` wrapper produced by `outer(func)` in
time-decorator.py.  The wrapped function is modelled as a state transformer
`func : σ → σ × α` (state σ carries its side effects); clock0 and clock1 are
the values of the two time.time() reads.  Following Python's left-to-right
evaluation, the trace is: read the clock, call func (result discarded), sleep
5, read the clock for the elapsed time, call func again; the returned pair is
(elapsed, second result). -/
def outer {σ α : Type} (clock0 clock1 : Int) (func : σ → σ × α) (st : σ) :
    σ × List (TEvent α) × (Int × α) :=
  let n := clock0
  let r1 := func st
  let t2 := clock1
  let r2 := func r1.1
  (r2.1,
    [TEvent.timeRead n, TEvent.call r1.2, TEvent.sleepFor 5, TEvent.timeRead t2,
      TEvent.call r2.2],
    (t2 - n, r2.2))

/-- C10: the wrapper produced by `outer` invokes the wrapped function exactly
twice per call with the 5-second sleep between the two invocations, returns a
pair whose second component is the second invocation's result (the first
result is discarded), and leaves the state of two successive invocations
(side effects happen twice). -/
theorem outer_inner_spec {σ α : Type} (clock0 clock1 : Int) (func : σ → σ × α)
    (st : σ) :
    ((outer clock0 clock1 func st).2.1.filter isCallEv).length = 2 ∧
    (outer clock0 clock1 func st).2.1 =
      [TEvent.timeRead clock0, TEvent.call (func st).2, TEvent.sleepFor 5,
        TEvent.timeRead clock1, TEvent.call (func (func st).1).2] ∧
    (outer clock0 clock1 func st).2.2 = (clock1 - clock0, (func (func st).1).2) ∧
    (outer clock0 clock1 func st).1 = (func (func st).1).1 :=
  ⟨rfl, rfl, rfl, rfl⟩
